import Mathlib

/-!
# Verification of `script.py` (github-telegram repository watcher)

Shallow embedding of `src/script.py`.  The script polls GitHub repositories,
downloads new source snapshots and release assets into a local directory,
writes a `checksums.txt` file, sends a Telegram text message per updated
repository, and persists a `versions.json` mapping.

External effects (HTTP requests, the Telegram bot, SHA-256 hashing) are
modelled as oracles in an `Env` record.  A request that raises a Python
exception is distinguished (`exn`) from one that returns a non-200 status
(`httpError`), because the script handles them very differently: a non-200
status is silently ignored, while an exception propagates out of
`track_repository` (there is no try/except anywhere except inside
`send_telegram_message`).

State is modelled explicitly: `version_tracking` (the in-memory dict),
the persisted `versions.json` contents, and the per-repository directory
listing, all as insertion-ordered association lists (mirroring Python
dict order and an abstract directory-listing order).
-/

set_option autoImplicit false

namespace GhTg

/-! ## Association lists (Python dict / directory listing model) -/

/-- Lookup in an insertion-ordered association list (first match),
modelling Python `dict.get`. -/
def alGet {α : Type} : List (String × α) → String → Option α
  | [], _ => none
  | (m, b) :: d, n => if m = n then some b else alGet d n

/-- Update-or-append in an insertion-ordered association list, modelling
Python `dict[k] = v` (existing key keeps its position, new key appended)
and overwriting a file in a directory. -/
def alSet {α : Type} : List (String × α) → String → α → List (String × α)
  | [], n, c => [(n, c)]
  | (m, b) :: d, n, c => if m = n then (n, c) :: d else (m, b) :: alSet d n c

/-! ## Data model -/

/-- One repository's entry in `version_tracking`: a Python dict with
optional keys `"commit"` and `"release"`.  `{}` is the empty dict
(`dict.setdefault(repo_name, {})` default). -/
structure VersionRecord where
  commit : Option String := none
  release : Option String := none
deriving DecidableEq

/-- The `version_tracking` dict: repo name to record. -/
abbrev Store := List (String × VersionRecord)

/-- A repository directory listing: file name to file contents
(contents abstracted as strings). -/
abbrev Dir := List (String × String)

/-- Result of `requests.get` on the commits endpoint
(`get_latest_commit`, script.py lines 43-49). -/
inductive CommitResult where
  | ok (sha : String)
  | httpError
  | exn
deriving DecidableEq

/-- Result of `requests.get` on the releases endpoint
(`get_latest_release`, script.py lines 51-58).  A 200 response carries
`data.get("tag_name")` (possibly absent) and the asset download URLs. -/
inductive ReleaseResult where
  | ok (tag : Option String) (urls : List String)
  | httpError
  | exn
deriving DecidableEq

/-- Result of `requests.get(url, stream=True)` inside `download_file`
(script.py lines 60-66): a 200 body, a silently-ignored non-200 status,
or a raised exception. -/
inductive FetchResult where
  | ok (body : String)
  | httpError
  | exn
deriving DecidableEq

/-- A Python exception escaping `track_repository`. -/
inductive RunError where
  | commitExn
  | releaseExn
  | fetchExn (url : String)
  | keyError
deriving DecidableEq

/-- Oracle for one repository's external world during one
`track_repository` call.  `sendOk` records whether `bot.send_message`
succeeds; the script catches and prints its failures, so behaviour does
not depend on it.  `sha256hex` models
`hashlib.sha256(bytes).hexdigest()`. -/
structure Env where
  commitResp : CommitResult
  releaseResp : ReleaseResult
  fetch : String → FetchResult
  sendOk : Bool
  sha256hex : String → String

/-- Events observed during one `track_repository` call: the URLs passed
to `download_file` (in order), and the number of `send_telegram_message`
invocations. -/
structure Trace where
  fetches : List String := []
  sends : Nat := 0
deriving DecidableEq

/-- The script's mutable state relevant to one repository:
the in-memory `version_tracking` dict, the persisted contents of
`versions.json` (`saved`), and the repository directory listing. -/
structure RState where
  store : Store
  saved : Store
  dir : Dir
deriving DecidableEq

/-- Outcome of `track_repository`: `err = some e` means a Python
exception escaped (state holds the mutations made before the raise; the
final `json.dump` did not run). -/
structure TrackResult where
  err : Option RunError
  state : RState
  trace : Trace
deriving DecidableEq

/-! ## URL helpers (lines 39-41, 89, 102, 113 of script.py) -/

/-- Python `str.split(c)` on a character, e.g. `"a//b".split("/") =
["a", "", "b"]`. -/
def pySplitChars (c : Char) : List Char → List (List Char)
  | [] => [[]]
  | a :: as =>
    let r := pySplitChars c as
    if a = c then [] :: r
    else
      match r with
      | [] => [[a]]
      | g :: gs => (a :: g) :: gs

/-- Python `str.split(c)` lifted to `String`. -/
def pySplit (c : Char) (s : String) : List String :=
  (pySplitChars c s.toList).map (fun l => String.mk l)

/-- Python `str.rstrip("/")`: drop all trailing slashes. -/
def pyRstripSlash (s : String) : String :=
  String.mk ((s.toList.reverse.dropWhile (fun a => a = '/')).reverse)

/-- `parts[-1]` of a Python list (empty-list fallback `""` never hit on
well-formed repository URLs). -/
def lastPart (parts : List String) : String := parts.reverse.getD 0 ""

/-- `parts[-2]` of a Python list. -/
def secondLastPart (parts : List String) : String := parts.reverse.getD 1 ""

/-- `get_repo_name` (script.py lines 39-41):
`repo_url.rstrip("/").split("/")[-2] + "_" + repo_url.rstrip("/").split("/")[-1]`. -/
def get_repo_name (repo_url : String) : String :=
  let parts := pySplit '/' (pyRstripSlash repo_url)
  secondLastPart parts ++ "_" ++ lastPart parts

/-- `owner_repo` (script.py line 89): `"/".join(repo_url.rstrip("/").split("/")[-2:])`. -/
def owner_repo_of (repo_url : String) : String :=
  let parts := pySplit '/' (pyRstripSlash repo_url)
  secondLastPart parts ++ "/" ++ lastPart parts

/-- The snapshot zip URL (script.py line 102). -/
def zip_url_of (ownerRepo : String) : String :=
  "https://github.com/" ++ ownerRepo ++ "/archive/refs/heads/main.zip"

/-- `url.split("/")[-1]` (script.py line 113): the asset file name. -/
def file_name_of (url : String) : String := lastPart (pySplit '/' url)

/-! ## Leaf operations of script.py -/

/-- `get_latest_commit` (lines 43-49): 200 gives the sha, any other
status gives `None`, a raised exception propagates. -/
def get_latest_commit (r : CommitResult) : Except RunError (Option String) :=
  match r with
  | .ok sha => .ok (some sha)
  | .httpError => .ok none
  | .exn => .error .commitExn

/-- `get_latest_release` (lines 51-58): 200 gives
`(data.get("tag_name"), asset urls)`, any other status gives `(None, [])`,
a raised exception propagates. -/
def get_latest_release (r : ReleaseResult) : Except RunError (Option String × List String) :=
  match r with
  | .ok tag urls => .ok (tag, urls)
  | .httpError => .ok (none, [])
  | .exn => .error .releaseExn

/-- `download_file` (lines 60-66): on 200 the body is streamed to the
destination file; on any other status nothing happens (no error is
reported); a raised exception propagates. -/
def download_file (env : Env) (url destName : String) (dir : Dir) :
    Option RunError × Dir :=
  match env.fetch url with
  | .ok body => (none, alSet dir destName body)
  | .httpError => (none, dir)
  | .exn => (some (.fetchExn url), dir)

/-- `calculate_checksum` (lines 68-74): SHA-256 hex digest of the file's
bytes, via the hashing oracle. -/
def calculate_checksum (env : Env) (contents : String) : String :=
  env.sha256hex contents

/-- `send_telegram_message` (lines 76-81): the `try/except` swallows any
failure, so from the caller's view the call always completes; we count
the invocation. -/
def send_telegram_message (_env : Env) : Nat := 1

/-! ## track_repository (lines 83-136) -/

/-- The release-asset download loop (lines 112-116): each URL is passed
to `download_file` in order; returns the resulting directory, the list
of URLs for which `download_file` was entered, and the first raised
exception if any (which aborts the loop, as in Python). -/
def download_assets (env : Env) (urls : List String) (dir : Dir) :
    Option RunError × Dir × List String :=
  match urls with
  | [] => (none, dir, [])
  | u :: us =>
    match download_file env u (file_name_of u) dir with
    | (some e, d) => (some e, d, [u])
    | (none, d) =>
      match download_assets env us d with
      | (e2, d2, l2) => (e2, d2, u :: l2)

/-- The commit branch (lines 100-108).  Condition: `latest_commit` is
truthy and differs from `version_tracking.get(repo_name, {}).get("commit")`.
On entry the snapshot zip is downloaded and then — whatever the HTTP
status of that download — `version_tracking.setdefault(repo_name, {})["commit"]`
is set and `updated = True`; only a raised exception aborts before the
assignment.  Returns (error, store, dir, fetch urls, updated). -/
def commit_step (env : Env) (repo_name ownerRepo : String)
    (latest_commit : Option String) (store : Store) (dir : Dir) :
    Option RunError × Store × Dir × List String × Bool :=
  match latest_commit with
  | none => (none, store, dir, [], false)
  | some c =>
    if c ≠ "" ∧ ((alGet store repo_name).getD {}).commit ≠ some c then
      let zipUrl := zip_url_of ownerRepo
      match download_file env zipUrl "source.zip" dir with
      | (some e, d) => (some e, store, d, [zipUrl], false)
      | (none, d) =>
        let rec0 := (alGet store repo_name).getD {}
        (none, alSet store repo_name { rec0 with commit := some c }, d, [zipUrl], true)
    else (none, store, dir, [], false)

/-- The release branch (lines 110-119).  Condition: `latest_version` is
truthy and differs from `version_tracking.get(repo_name, {}).get("release")`.
On entry every asset URL is downloaded in order; afterwards line 117
`version_tracking[repo_name]["release"] = latest_version` raises
`KeyError` when `repo_name` is not a key of the dict. -/
def release_step (env : Env) (repo_name : String)
    (latest_version : Option String) (release_urls : List String)
    (store : Store) (dir : Dir) :
    Option RunError × Store × Dir × List String × Bool :=
  match latest_version with
  | none => (none, store, dir, [], false)
  | some v =>
    if v ≠ "" ∧ ((alGet store repo_name).getD {}).release ≠ some v then
      match download_assets env release_urls dir with
      | (some e, d, l) => (some e, store, d, l, false)
      | (none, d, l) =>
        match alGet store repo_name with
        | some rec0 =>
          (none, alSet store repo_name { rec0 with release := some v }, d, l, true)
        | none => (some .keyError, store, d, l, false)
    else (none, store, dir, [], false)

/-- One `f"{file.name}: {checksum}\n"` line (line 128). -/
def checksumLine (env : Env) (p : String × String) : String :=
  p.1 ++ ": " ++ calculate_checksum env p.2 ++ "\n"

/-- The full contents written to `checksums.txt` (lines 124-128): one
line per regular file of the directory listing, in listing order. -/
def checksumContent (env : Env) (d : Dir) : String :=
  String.join (d.map (checksumLine env))

/-- Lines 121-132: when `updated`, `open(checksums_path, "w")` first
truncates/creates `checksums.txt` (so the subsequent `iterdir` sees it
with empty on-disk contents — Python buffers the writes), the checksum
lines for every file of the directory are written, and one Telegram
message is sent.  Returns the directory and the send count. -/
def finish_step (env : Env) (updated : Bool) (dir : Dir) : Dir × Nat :=
  if updated then
    let d1 := alSet dir "checksums.txt" ""
    let content := checksumContent env d1
    (alSet d1 "checksums.txt" content, send_telegram_message env)
  else (dir, 0)

/-- `track_repository` (lines 83-136).  Queries the provider, runs the
commit branch then the release branch, writes checksums and notifies
when updated, and finally (line 135, reached only when no exception was
raised) rewrites `versions.json` with the in-memory dict. -/
def track_repository (env : Env) (repo_url : String) (st : RState) : TrackResult :=
  let repo_name := get_repo_name repo_url
  let ownerRepo := owner_repo_of repo_url
  match get_latest_commit env.commitResp with
  | .error e => ⟨some e, st, {}⟩
  | .ok latest_commit =>
    match get_latest_release env.releaseResp with
    | .error e => ⟨some e, st, {}⟩
    | .ok (latest_version, release_urls) =>
      match commit_step env repo_name ownerRepo latest_commit st.store st.dir with
      | (some e, store1, dir1, f1, _) => ⟨some e, ⟨store1, st.saved, dir1⟩, ⟨f1, 0⟩⟩
      | (none, store1, dir1, f1, u1) =>
        match release_step env repo_name latest_version release_urls store1 dir1 with
        | (some e, store2, dir2, f2, _) => ⟨some e, ⟨store2, st.saved, dir2⟩, ⟨f1 ++ f2, 0⟩⟩
        | (none, store2, dir2, f2, u2) =>
          let fs := finish_step env (u1 || u2) dir2
          ⟨none, ⟨store2, store2, fs.1⟩, ⟨f1 ++ f2, fs.2⟩⟩

/-! ## Startup state loading (lines 29-34) -/

/-- Error raised by `json.load` on unparsable input. -/
inductive LoadError where
  | jsonDecodeError
deriving DecidableEq

/-- Lines 29-34: if `versions.json` exists its contents are parsed with
`json.load` (an unparsable file raises, halting the import of the
script); otherwise `version_tracking = {}`.  `parseJson` abstracts the
stdlib JSON parser. -/
def load_version_tracking (parseJson : String → Option Store) (file : Option String) :
    Except LoadError Store :=
  match file with
  | none => .ok []
  | some s =>
    match parseJson s with
    | some st => .ok st
    | none => .error .jsonDecodeError

/-! ## The poll cycle (main, lines 149-152) -/

/-- Global script state: the in-memory dict, the persisted file, and the
per-repository directories under `github_repos/`. -/
structure GState where
  store : Store
  saved : Store
  dirs : List (String × Dir)
deriving DecidableEq

/-- One repository's sync inside `main`'s loop, threading the global
state (`repo_path.mkdir(exist_ok=True)` keeps an existing directory's
files). -/
def trackG (env : Env) (repo_url : String) (g : GState) :
    Option RunError × GState × Trace :=
  let name := get_repo_name repo_url
  let d0 := (alGet g.dirs name).getD []
  let r := track_repository env repo_url ⟨g.store, g.saved, d0⟩
  (r.err, ⟨r.state.store, r.state.saved, alSet g.dirs name r.state.dir⟩, r.trace)

/-- `main`'s loop (lines 151-152): `for repo in repositories:
track_repository(repo)`.  There is no try/except, so an exception raised
by one repository's sync aborts the whole loop. -/
def run_cycle (envs : String → Env) (repos : List String) (g : GState) :
    Option RunError × GState × List (String × Trace) :=
  match repos with
  | [] => (none, g, [])
  | r :: rs =>
    match trackG (envs r) r g with
    | (some e, g1, t) => (some e, g1, [(r, t)])
    | (none, g1, t) =>
      let r2 := run_cycle envs rs g1
      (r2.1, r2.2.1, (r, t) :: r2.2.2)

/-- A process restart (lines 29-34 re-run): the in-memory dict is
re-loaded from the persisted file; directories persist on disk. -/
def restart (st : RState) : RState := ⟨st.saved, st.saved, st.dir⟩

/-! ## Association-list lemmas -/

theorem alGet_alSet_self {α : Type} (d : List (String × α)) (n : String) (c : α) :
    alGet (alSet d n c) n = some c := by
  induction d with
  | nil => simp [alSet, alGet]
  | cons p d ih =>
    obtain ⟨m, b⟩ := p
    by_cases h : m = n
    · simp [alSet, alGet, h]
    · simp [alSet, alGet, h, ih]

theorem alGet_alSet_ne {α : Type} (d : List (String × α)) (m n : String) (c : α)
    (h : m ≠ n) : alGet (alSet d n c) m = alGet d m := by
  induction d with
  | nil => simp [alSet, alGet, Ne.symm h]
  | cons p d ih =>
    obtain ⟨k, b⟩ := p
    by_cases hk : k = n
    · subst hk
      simp [alSet, alGet, Ne.symm h]
    · simp [alSet, alGet, hk, ih]

theorem alSet_alSet_same {α : Type} (d : List (String × α)) (n : String) (c c' : α) :
    alSet (alSet d n c) n c' = alSet d n c' := by
  induction d with
  | nil => simp [alSet]
  | cons p d ih =>
    obtain ⟨k, b⟩ := p
    by_cases hk : k = n
    · simp [alSet, hk]
    · simp [alSet, hk, ih]

theorem mem_alSet_self {α : Type} (d : List (String × α)) (n : String) (c : α) :
    (n, c) ∈ alSet d n c := by
  induction d with
  | nil => simp [alSet]
  | cons p d ih =>
    obtain ⟨k, b⟩ := p
    by_cases hk : k = n
    · simp [alSet, hk]
    · simp only [alSet, if_neg hk]
      exact List.mem_cons_of_mem _ ih

theorem mem_alSet_of_ne {α : Type} {d : List (String × α)} {m : String} {b : α}
    (n : String) (c : α) (h : (m, b) ∈ d) (hne : m ≠ n) : (m, b) ∈ alSet d n c := by
  induction d with
  | nil => cases h
  | cons p d ih =>
    obtain ⟨k, x⟩ := p
    rcases List.mem_cons.mp h with h1 | h2
    · by_cases hk : k = n
      · exact absurd (congrArg Prod.fst h1) (by simpa [hk] using hne)
      · simp only [alSet, if_neg hk]
        exact h1 ▸ List.mem_cons_self _ _
    · by_cases hk : k = n
      · simp only [alSet, if_pos hk]
        exact List.mem_cons_of_mem _ h2
      · simp only [alSet, if_neg hk]
        exact List.mem_cons_of_mem _ (ih h2)

theorem mem_keys_alSet {α : Type} {d : List (String × α)} {k : String}
    (n : String) (c : α) (h : k ∈ d.map Prod.fst) :
    k ∈ (alSet d n c).map Prod.fst := by
  induction d with
  | nil => simp at h
  | cons p d ih =>
    obtain ⟨m, b⟩ := p
    rcases List.mem_cons.mp h with h1 | h2
    · by_cases hm : m = n
      · subst h1
        simp [alSet, hm]
      · subst h1
        simp [alSet, hm]
    · by_cases hm : m = n
      · simp only [alSet, if_pos hm, List.map_cons]
        exact List.mem_cons_of_mem _ h2
      · simp only [alSet, if_neg hm, List.map_cons]
        exact List.mem_cons_of_mem _ (ih h2)

/-! ## Behavioural lemmas about the steps of track_repository -/

theorem download_assets_no_exn (env : Env) (urls : List String) (d : Dir)
    (h : ∀ u ∈ urls, env.fetch u ≠ .exn) :
    (download_assets env urls d).1 = none ∧ (download_assets env urls d).2.2 = urls := by
  induction urls generalizing d with
  | nil => simp [download_assets]
  | cons u us ih =>
    have hu : env.fetch u ≠ .exn := h u (List.mem_cons_self u us)
    have hus : ∀ x ∈ us, env.fetch x ≠ .exn := fun x hx => h x (List.mem_cons_of_mem _ hx)
    rcases hf : env.fetch u with b | _ | _
    · simpa [download_assets, download_file, hf] using ih (alSet d (file_name_of u) b) hus
    · simpa [download_assets, download_file, hf] using ih d hus
    · exact absurd hf hu

theorem commit_step_skip_none (env : Env) (rn orr : String) (store : Store) (dir : Dir) :
    commit_step env rn orr none store dir = (none, store, dir, [], false) := rfl

theorem commit_step_skip (env : Env) (rn orr c : String) (store : Store) (dir : Dir)
    (h : ¬ (c ≠ "" ∧ ((alGet store rn).getD {}).commit ≠ some c)) :
    commit_step env rn orr (some c) store dir = (none, store, dir, [], false) := by
  simp only [commit_step]
  split
  · exact absurd ‹_› h
  · rfl

theorem commit_step_fires (env : Env) (rn orr c : String) (store : Store) (dir : Dir)
    (hc : c ≠ "") (hne : ((alGet store rn).getD {}).commit ≠ some c)
    (hfe : env.fetch (zip_url_of orr) ≠ .exn) :
    commit_step env rn orr (some c) store dir =
      (none, alSet store rn { (alGet store rn).getD {} with commit := some c },
       (download_file env (zip_url_of orr) "source.zip" dir).2, [zip_url_of orr], true) := by
  simp only [commit_step]
  split
  · rcases hf : env.fetch (zip_url_of orr) with b | _ | _
    · simp [download_file, hf]
    · simp [download_file, hf]
    · exact absurd hf hfe
  · exact absurd (And.intro hc hne) ‹_›

theorem commit_step_exn (env : Env) (rn orr c : String) (store : Store) (dir : Dir)
    (hc : c ≠ "") (hne : ((alGet store rn).getD {}).commit ≠ some c)
    (hfe : env.fetch (zip_url_of orr) = .exn) :
    commit_step env rn orr (some c) store dir =
      (some (.fetchExn (zip_url_of orr)), store, dir, [zip_url_of orr], false) := by
  simp only [commit_step]
  split
  · simp [download_file, hfe]
  · exact absurd (And.intro hc hne) ‹_›

theorem commit_step_no_update (env : Env) (rn orr : String) (lc : Option String)
    (store : Store) (dir : Dir) (s : Store) (d : Dir) (f : List String)
    (h : commit_step env rn orr lc store dir = (none, s, d, f, false)) :
    s = store ∧ d = dir ∧ f = [] := by
  rcases lc with _ | c
  · simp only [commit_step] at h
    simp at h
    refine ⟨?_, ?_, ?_⟩ <;> simp_all
  · simp only [commit_step] at h
    split at h
    · rcases hf : env.fetch (zip_url_of orr) with b | _ | _ <;>
        simp [download_file, hf] at h
    · simp at h
      refine ⟨?_, ?_, ?_⟩ <;> simp_all

theorem release_step_skip_none (env : Env) (rn : String) (urls : List String)
    (store : Store) (dir : Dir) :
    release_step env rn none urls store dir = (none, store, dir, [], false) := rfl

theorem release_step_skip (env : Env) (rn v : String) (urls : List String)
    (store : Store) (dir : Dir)
    (h : ¬ (v ≠ "" ∧ ((alGet store rn).getD {}).release ≠ some v)) :
    release_step env rn (some v) urls store dir = (none, store, dir, [], false) := by
  simp only [release_step]
  split
  · exact absurd ‹_› h
  · rfl

theorem release_step_fires (env : Env) (rn v : String) (urls : List String)
    (store : Store) (dir : Dir) (rec0 : VersionRecord)
    (hv : v ≠ "") (hrec : alGet store rn = some rec0)
    (hne : rec0.release ≠ some v)
    (hno : ∀ u ∈ urls, env.fetch u ≠ .exn) :
    release_step env rn (some v) urls store dir =
      (none, alSet store rn { rec0 with release := some v },
       (download_assets env urls dir).2.1, urls, true) := by
  simp only [release_step]
  split
  · obtain ⟨h1, h2⟩ := download_assets_no_exn env urls dir hno
    rcases hda : download_assets env urls dir with ⟨e, dd, l⟩
    rw [hda] at h1 h2
    simp only at h1 h2
    subst h1; subst h2
    simp [hrec, hda]
  · have hx : ((alGet store rn).getD {}).release ≠ some v := by
      rw [hrec]
      simpa using hne
    exact absurd (And.intro hv hx) ‹_›

theorem release_step_key_error (env : Env) (rn v : String) (urls : List String)
    (store : Store) (dir : Dir)
    (hv : v ≠ "") (hrec : alGet store rn = none)
    (hno : ∀ u ∈ urls, env.fetch u ≠ .exn) :
    release_step env rn (some v) urls store dir =
      (some .keyError, store, (download_assets env urls dir).2.1, urls, false) := by
  simp only [release_step]
  split
  · obtain ⟨h1, h2⟩ := download_assets_no_exn env urls dir hno
    rcases hda : download_assets env urls dir with ⟨e, dd, l⟩
    rw [hda] at h1 h2
    simp only at h1 h2
    subst h1; subst h2
    simp [hrec, hda]
  · have hx : ((alGet store rn).getD {}).release ≠ some v := by
      rw [hrec]
      simp
    exact absurd (And.intro hv hx) ‹_›

theorem release_step_no_update (env : Env) (rn : String) (lv : Option String)
    (urls : List String) (store : Store) (dir : Dir) (s : Store) (d : Dir) (f : List String)
    (h : release_step env rn lv urls store dir = (none, s, d, f, false)) :
    s = store ∧ d = dir ∧ f = [] := by
  rcases lv with _ | v
  · simp only [release_step] at h
    simp at h
    refine ⟨?_, ?_, ?_⟩ <;> simp_all
  · simp only [release_step] at h
    split at h
    · rcases hda : download_assets env urls dir with ⟨e, dd, l⟩
      rw [hda] at h
      rcases e with _ | e
      · rcases hg : alGet store rn with _ | rec0 <;> rw [hg] at h <;> simp at h
      · simp at h
    · simp at h
      refine ⟨?_, ?_, ?_⟩ <;> simp_all

theorem finish_step_false (env : Env) (dir : Dir) : finish_step env false dir = (dir, 0) := rfl

theorem finish_step_true (env : Env) (dir : Dir) :
    finish_step env true dir =
      (alSet (alSet dir "checksums.txt" "") "checksums.txt"
        (checksumContent env (alSet dir "checksums.txt" "")), 1) := rfl

/-- Evaluation of `track_repository` on the success path, given the
outcomes of its two branches. -/
theorem track_repository_ok (env : Env) (url : String) (st : RState)
    (lc lv : Option String) (urls : List String)
    (store1 store2 : Store) (dir1 dir2 : Dir) (f1 f2 : List String) (u1 u2 : Bool)
    (hc : get_latest_commit env.commitResp = .ok lc)
    (hr : get_latest_release env.releaseResp = .ok (lv, urls))
    (h1 : commit_step env (get_repo_name url) (owner_repo_of url) lc st.store st.dir
          = (none, store1, dir1, f1, u1))
    (h2 : release_step env (get_repo_name url) lv urls store1 dir1
          = (none, store2, dir2, f2, u2)) :
    track_repository env url st =
      ⟨none, ⟨store2, store2, (finish_step env (u1 || u2) dir2).1⟩,
       ⟨f1 ++ f2, (finish_step env (u1 || u2) dir2).2⟩⟩ := by
  unfold track_repository
  rw [hc, hr]
  dsimp only
  rw [h1]
  dsimp only
  rw [h2]

/-- Evaluation of `track_repository` when the commit query raises. -/
theorem track_repository_commit_query_exn (env : Env) (url : String) (st : RState)
    (h : env.commitResp = .exn) :
    track_repository env url st = ⟨some .commitExn, st, {}⟩ := by
  simp [track_repository, get_latest_commit, h]

/-- Evaluation of `track_repository` when the commit branch raises. -/
theorem track_repository_commit_err (env : Env) (url : String) (st : RState)
    (lc lv : Option String) (urls : List String) (e : RunError)
    (store1 : Store) (dir1 : Dir) (f1 : List String) (b : Bool)
    (hc : get_latest_commit env.commitResp = .ok lc)
    (hr : get_latest_release env.releaseResp = .ok (lv, urls))
    (h1 : commit_step env (get_repo_name url) (owner_repo_of url) lc st.store st.dir
          = (some e, store1, dir1, f1, b)) :
    track_repository env url st = ⟨some e, ⟨store1, st.saved, dir1⟩, ⟨f1, 0⟩⟩ := by
  unfold track_repository
  rw [hc, hr]
  dsimp only
  rw [h1]

/-- Evaluation of `track_repository` when the release branch raises. -/
theorem track_repository_release_err (env : Env) (url : String) (st : RState)
    (lc lv : Option String) (urls : List String) (e : RunError)
    (store1 store2 : Store) (dir1 dir2 : Dir) (f1 f2 : List String) (u1 b : Bool)
    (hc : get_latest_commit env.commitResp = .ok lc)
    (hr : get_latest_release env.releaseResp = .ok (lv, urls))
    (h1 : commit_step env (get_repo_name url) (owner_repo_of url) lc st.store st.dir
          = (none, store1, dir1, f1, u1))
    (h2 : release_step env (get_repo_name url) lv urls store1 dir1
          = (some e, store2, dir2, f2, b)) :
    track_repository env url st = ⟨some e, ⟨store2, st.saved, dir2⟩, ⟨f1 ++ f2, 0⟩⟩ := by
  unfold track_repository
  rw [hc, hr]
  dsimp only
  rw [h1]
  dsimp only
  rw [h2]

/-! ## No file is ever deleted: key-preservation lemmas -/

theorem download_file_keys (env : Env) (u nm : String) (d : Dir) {k : String}
    (h : k ∈ d.map Prod.fst) :
    k ∈ ((download_file env u nm d).2).map Prod.fst := by
  rcases hf : env.fetch u with b | _ | _ <;> simp only [download_file, hf]
  · exact mem_keys_alSet nm b h
  · exact h
  · exact h

theorem download_assets_keys (env : Env) (urls : List String) (d : Dir) {k : String}
    (h : k ∈ d.map Prod.fst) :
    k ∈ ((download_assets env urls d).2.1).map Prod.fst := by
  induction urls generalizing d with
  | nil => simpa [download_assets] using h
  | cons u us ih =>
    rcases hf : env.fetch u with b | _ | _ <;>
      simp only [download_assets, download_file, hf]
    · exact ih _ (mem_keys_alSet _ b h)
    · exact ih _ h
    · exact h

theorem commit_step_keys (env : Env) (rn orr : String) (lc : Option String)
    (store : Store) (dir : Dir) {k : String} (h : k ∈ dir.map Prod.fst) :
    k ∈ ((commit_step env rn orr lc store dir).2.2.1).map Prod.fst := by
  rcases lc with _ | c
  · simpa [commit_step] using h
  · simp only [commit_step]
    split
    · have hk := download_file_keys env (zip_url_of orr) "source.zip" dir h
      rcases hdf : download_file env (zip_url_of orr) "source.zip" dir with ⟨e, dd⟩
      rw [hdf] at hk
      rcases e with _ | e <;> simp only [hdf] <;> simpa using hk
    · simpa using h

theorem release_step_keys (env : Env) (rn : String) (lv : Option String)
    (urls : List String) (store : Store) (dir : Dir) {k : String}
    (h : k ∈ dir.map Prod.fst) :
    k ∈ ((release_step env rn lv urls store dir).2.2.1).map Prod.fst := by
  rcases lv with _ | v
  · simpa [release_step] using h
  · simp only [release_step]
    split
    · have hk := download_assets_keys env urls dir h
      rcases hda : download_assets env urls dir with ⟨e, dd, l⟩
      rw [hda] at hk
      rcases e with _ | e
      · rcases hg : alGet store rn with _ | rec0 <;> simp only [hda, hg] <;> simpa using hk
      · simp only [hda]
        simpa using hk
    · simpa using h

theorem finish_step_keys (env : Env) (u : Bool) (dir : Dir) {k : String}
    (h : k ∈ dir.map Prod.fst) :
    k ∈ ((finish_step env u dir).1).map Prod.fst := by
  cases u
  · simpa [finish_step] using h
  · simp only [finish_step, if_true]
    exact mem_keys_alSet _ _ (mem_keys_alSet _ _ h)

/-! ## Concrete test fixtures -/

def urlOR : String := "https://github.com/o/r"

def urlOS : String := "https://github.com/o/s"

def hashFx : String → String := fun _ => "f00d"

/-- Empty first-run state. -/
def st0 : RState := ⟨[], [], []⟩

/-- A state already tracking commit c0 and no release for o_r. -/
def stC0 : RState :=
  ⟨[("o_r", ⟨some "c0", none⟩)], [("o_r", ⟨some "c0", none⟩)], []⟩

def envFirstRun : Env :=
  { commitResp := .ok "c1", releaseResp := .ok (some "v1") ["https://x/a.bin"],
    fetch := fun _ => .ok "DATA", sendOk := true, sha256hex := hashFx }

def envFetchHttpFail : Env :=
  { commitResp := .ok "c1", releaseResp := .httpError,
    fetch := fun _ => .httpError, sendOk := false, sha256hex := hashFx }

def envZipExn : Env :=
  { commitResp := .ok "c1", releaseResp := .httpError,
    fetch := fun _ => .exn, sendOk := false, sha256hex := hashFx }

def envNoCommit : Env :=
  { commitResp := .httpError, releaseResp := .ok (some "v1") ["https://x/a.bin"],
    fetch := fun _ => .ok "DATA", sendOk := true, sha256hex := hashFx }

def envAssetExn : Env :=
  { commitResp := .ok "c0",
    releaseResp := .ok (some "v1") ["https://x/A", "https://x/B", "https://x/C"],
    fetch := fun u => if u = "https://x/B" then .exn else .ok "DATA",
    sendOk := true, sha256hex := hashFx }

def envAssetHttp : Env :=
  { commitResp := .ok "c0",
    releaseResp := .ok (some "v1") ["https://x/A", "https://x/B", "https://x/C"],
    fetch := fun u => if u = "https://x/B" then .httpError else .ok "DATA",
    sendOk := true, sha256hex := hashFx }

def envSnapOnly : Env :=
  { commitResp := .ok "c1", releaseResp := .httpError,
    fetch := fun _ => .ok "ZIP", sendOk := true, sha256hex := hashFx }

def envNoChange : Env :=
  { commitResp := .ok "c0", releaseResp := .httpError,
    fetch := fun _ => .ok "DATA", sendOk := true, sha256hex := hashFx }

def envCommitExn : Env :=
  { commitResp := .exn, releaseResp := .httpError,
    fetch := fun _ => .ok "DATA", sendOk := true, sha256hex := hashFx }

def envsCycle : String → Env := fun u => if u = urlOR then envCommitExn else envSnapOnly

def g0 : GState := ⟨[], [], []⟩

/-! ## Claims -/

/-- C1, counterexample.  The claim says the persisted record is advanced
to a new commit only after the snapshot was successfully fetched and
successfully relayed, and is left unchanged when either fails.  In the
code the assignment `version_tracking[...]["commit"] = latest_commit`
(line 106) runs right after `download_file` regardless of the download's
HTTP status, and before `send_telegram_message` (line 132), whose
failures are swallowed.  Concrete run: the snapshot download returns a
non-200 status (nothing is written — no `source.zip` appears) and the
Telegram send fails (`sendOk = false`), yet `last_commit` is advanced to
`c1` in the persisted mapping. -/
theorem C1_counterexample :
    (track_repository envFetchHttpFail urlOR st0).err = none ∧
    alGet (track_repository envFetchHttpFail urlOR st0).state.saved "o_r"
      = some { commit := some "c1", release := none } ∧
    alGet (track_repository envFetchHttpFail urlOR st0).state.dir "source.zip" = none ∧
    envFetchHttpFail.sendOk = false := by
  decide

/-- C3, counterexample.  The claim says a failed head-commit query makes
the sync return early with no fetch, no relay, no release processing and
an unchanged mapping.  In the code a `None` commit merely skips the
commit branch (line 101); release processing still runs.  Concrete run:
the commit query returns non-200, a new release `v1` exists, and the
sync fetches the asset, sends the notification, and persists the new
`last_release`. -/
theorem C3_counterexample :
    (track_repository envNoCommit urlOR stC0).trace.fetches = ["https://x/a.bin"] ∧
    (track_repository envNoCommit urlOR stC0).trace.sends = 1 ∧
    alGet (track_repository envNoCommit urlOR stC0).state.saved "o_r"
      = some { commit := some "c0", release := some "v1" } := by
  decide

/-- C4, counterexample.  The claim says a first run with commit `c1` and
release `v1` performs exactly one snapshot fetch-and-relay and one
fetch-and-relay per release asset.  The fetch half is right, but the
script's only Notifier interaction is a single combined
`send_telegram_message` per updated repository (line 132): with one
release asset the claim implies two relays (snapshot + asset), while the
code performs exactly one. -/
theorem C4_counterexample :
    (track_repository envFirstRun urlOR st0).err = none ∧
    (track_repository envFirstRun urlOR st0).trace.fetches
      = ["https://github.com/o/r/archive/refs/heads/main.zip", "https://x/a.bin"] ∧
    (track_repository envFirstRun urlOR st0).trace.sends = 1 ∧
    (track_repository envFirstRun urlOR st0).trace.sends ≠ 2 := by
  decide

/-- C6, counterexample.  The claim says a failure fetching asset B never
prevents assets A and C from being fetched.  That holds only for non-200
statuses: a network exception raised while fetching B propagates out of
the asset loop (lines 112-116 have no try/except), so C is never
attempted and the sync aborts.  Concrete run: fetching B raises; the
fetch trace is `[A, B]` — C is missing — and no state is persisted. -/
theorem C6_counterexample :
    (track_repository envAssetExn urlOR stC0).err = some (.fetchExn "https://x/B") ∧
    (track_repository envAssetExn urlOR stC0).trace.fetches
      = ["https://x/A", "https://x/B"] ∧
    (track_repository envAssetExn urlOR stC0).state.store = stC0.store ∧
    (track_repository envAssetExn urlOR stC0).trace.sends = 0 := by
  decide

/-- C8, counterexample.  The claim says an error while syncing one
repository never causes later repositories in the same cycle to be
skipped.  `main`'s loop (lines 151-152) has no try/except, so an
exception raised by the first repository's sync terminates the cycle.
Concrete run: the first repository's commit query raises; the cycle
returns that error and the second repository is never synced (the trace
list has an entry only for the first). -/
theorem C8_counterexample :
    run_cycle envsCycle [urlOR, urlOS] g0
      = (some .commitExn, ⟨[], [], [("o_r", [])]⟩, [(urlOR, ⟨[], 0⟩)]) := by
  decide

/-- C9, counterexample.  The claim says a locally materialized artifact
is removed once its relay succeeds.  The script never deletes any file.
Concrete run: a new commit's snapshot is downloaded and the notification
is sent successfully, yet `source.zip` is still present in the
repository directory afterwards. -/
theorem C9_counterexample :
    (track_repository envSnapOnly urlOR st0).err = none ∧
    (track_repository envSnapOnly urlOR st0).trace.sends = 1 ∧
    alGet (track_repository envSnapOnly urlOR st0).state.dir "source.zip" = some "ZIP" := by
  decide

/-- C7.  If the persisted version-state file exists but its contents are
unparsable, startup halts with an error (`json.load` raises at import,
lines 29-34) rather than returning an empty mapping: `load` never
silently resets the tracking state. -/
theorem C7_malformed_state_halts (parseJson : String → Option Store) (s : String)
    (h : parseJson s = none) :
    load_version_tracking parseJson (some s) = .error .jsonDecodeError ∧
    ∀ st : Store, load_version_tracking parseJson (some s) ≠ .ok st := by
  refine ⟨by simp [load_version_tracking, h], fun st hst => ?_⟩
  simp [load_version_tracking, h] at hst

/-- C7, witness: a concrete unparsable file halts the load. -/
theorem C7_witness :
    (fun _ : String => (none : Option Store)) "not json" = none ∧
    load_version_tracking (fun _ => none) (some "not json") = .error .jsonDecodeError :=
  ⟨rfl, (C7_malformed_state_halts (fun _ => none) "not json" rfl).1⟩

theorem download_file_env_congr (env1 env2 : Env) (h3 : env1.fetch = env2.fetch)
    (u nm : String) (d : Dir) :
    download_file env1 u nm d = download_file env2 u nm d := by
  unfold download_file
  rw [h3]

theorem download_assets_env_congr (env1 env2 : Env) (h3 : env1.fetch = env2.fetch)
    (urls : List String) (d : Dir) :
    download_assets env1 urls d = download_assets env2 urls d := by
  induction urls generalizing d with
  | nil => rfl
  | cons u us ih =>
    simp only [download_assets, download_file_env_congr env1 env2 h3]
    rcases hdf : download_file env2 u (file_name_of u) d with ⟨e, dd⟩
    rcases e with _ | e
    · simp only [ih dd]
    · rfl

theorem checksumContent_env_congr (env1 env2 : Env)
    (h4 : env1.sha256hex = env2.sha256hex) (d : Dir) :
    checksumContent env1 d = checksumContent env2 d := by
  have hl : checksumLine env1 = checksumLine env2 := by
    funext p
    simp [checksumLine, calculate_checksum, h4]
  simp [checksumContent, hl]

theorem finish_step_env_congr (env1 env2 : Env)
    (h4 : env1.sha256hex = env2.sha256hex) (u : Bool) (d : Dir) :
    finish_step env1 u d = finish_step env2 u d := by
  cases u
  · rfl
  · simp [finish_step, send_telegram_message, checksumContent_env_congr env1 env2 h4]

theorem commit_step_env_congr (env1 env2 : Env) (h3 : env1.fetch = env2.fetch)
    (rn orr : String) (lc : Option String) (store : Store) (dir : Dir) :
    commit_step env1 rn orr lc store dir = commit_step env2 rn orr lc store dir := by
  rcases lc with _ | c
  · rfl
  · simp only [commit_step, download_file_env_congr env1 env2 h3]

theorem release_step_env_congr (env1 env2 : Env) (h3 : env1.fetch = env2.fetch)
    (rn : String) (lv : Option String) (urls : List String) (store : Store) (dir : Dir) :
    release_step env1 rn lv urls store dir = release_step env2 rn lv urls store dir := by
  rcases lv with _ | v
  · rfl
  · simp only [release_step, download_assets_env_congr env1 env2 h3]

/-- `track_repository` depends only on the provider responses, the fetch
oracle and the hash oracle — in particular not on whether the Telegram
send succeeds (its `try/except` swallows failures). -/
theorem track_repository_env_congr (env1 env2 : Env)
    (h1 : env1.commitResp = env2.commitResp)
    (h2 : env1.releaseResp = env2.releaseResp)
    (h3 : env1.fetch = env2.fetch)
    (h4 : env1.sha256hex = env2.sha256hex)
    (url : String) (st : RState) :
    track_repository env1 url st = track_repository env2 url st := by
  unfold track_repository
  rw [h1, h2]
  simp only [commit_step_env_congr env1 env2 h3, release_step_env_congr env1 env2 h3,
    finish_step_env_congr env1 env2 h4]

/-- C8, amended.  For every ordered repository list: when the cycle
returns an exception, the repositories whose sync was entered form a
strict prefix `pre ++ [r]` of the list — `r` is the repository whose
sync raised, and every repository after it, at any position and in any
number, was skipped; when the cycle returns no exception, every
repository of the list was synced.  Only Notifier failures are
contained — `send_telegram_message` swallows its exceptions, so
`track_repository` does not depend on whether the Telegram send
succeeds. -/
theorem C8_amended :
    (∀ (envs : String → Env) (repos : List String) (g : GState) (e : RunError),
        (run_cycle envs repos g).1 = some e →
        ∃ pre r post, repos = pre ++ r :: post ∧
          ((run_cycle envs repos g).2.2).map Prod.fst = pre ++ [r]) ∧
    (∀ (envs : String → Env) (repos : List String) (g : GState),
        (run_cycle envs repos g).1 = none →
        ((run_cycle envs repos g).2.2).map Prod.fst = repos) ∧
    (∀ (env : Env) (b : Bool) (url : String) (st : RState),
        track_repository { env with sendOk := b } url st = track_repository env url st) := by
  refine ⟨?_, ?_, ?_⟩
  · intro envs repos
    induction repos with
    | nil =>
      intro g e h
      simp [run_cycle] at h
    | cons r rs ih =>
      intro g e h
      rcases ht : trackG (envs r) r g with ⟨er, g1, t⟩
      rcases er with _ | e'
      · have hrc : run_cycle envs (r :: rs) g
            = ((run_cycle envs rs g1).1, (run_cycle envs rs g1).2.1,
               (r, t) :: (run_cycle envs rs g1).2.2) := by
          simp only [run_cycle, ht]
        rw [hrc] at h ⊢
        dsimp only at h ⊢
        obtain ⟨pre, r', post, hsplit, hmap⟩ := ih g1 e h
        exact ⟨r :: pre, r', post, by rw [hsplit]; rfl, by simp [hmap]⟩
      · have hrc : run_cycle envs (r :: rs) g = (some e', g1, [(r, t)]) := by
          simp only [run_cycle, ht]
        rw [hrc]
        exact ⟨[], r, rs, rfl, by simp⟩
  · intro envs repos
    induction repos with
    | nil =>
      intro g _
      simp [run_cycle]
    | cons r rs ih =>
      intro g h
      rcases ht : trackG (envs r) r g with ⟨er, g1, t⟩
      rcases er with _ | e'
      · have hrc : run_cycle envs (r :: rs) g
            = ((run_cycle envs rs g1).1, (run_cycle envs rs g1).2.1,
               (r, t) :: (run_cycle envs rs g1).2.2) := by
          simp only [run_cycle, ht]
        rw [hrc] at h ⊢
        dsimp only at h ⊢
        simp [ih g1 h]
      · have hrc : run_cycle envs (r :: rs) g = (some e', g1, [(r, t)]) := by
          simp only [run_cycle, ht]
        rw [hrc] at h
        simp at h
  · intro env b url st
    exact track_repository_env_congr { env with sendOk := b } env rfl rfl rfl rfl url st

/-- C8, witness for the amended claim at concrete inputs: a two-element
cycle failing at the first repository syncs exactly that prefix, an
error-free cycle syncs every repository, and the sync is invariant in
the send outcome. -/
theorem C8_witness :
    (∃ pre r post, ([urlOR, urlOS] : List String) = pre ++ r :: post ∧
      ((run_cycle envsCycle [urlOR, urlOS] g0).2.2).map Prod.fst = pre ++ [r]) ∧
    ((run_cycle (fun _ => envSnapOnly) [urlOR] g0).2.2).map Prod.fst = [urlOR] ∧
    track_repository { envSnapOnly with sendOk := false } urlOR st0
      = track_repository envSnapOnly urlOR st0 :=
  ⟨C8_amended.1 envsCycle [urlOR, urlOS] g0 .commitExn (by decide),
   C8_amended.2.1 (fun _ => envSnapOnly) [urlOR] g0 (by decide),
   C8_amended.2.2 envSnapOnly false urlOR st0⟩

/-- Evaluation of `track_repository` when the release query raises
(after a non-raising commit query). -/
theorem track_repository_release_query_exn (env : Env) (url : String) (st : RState)
    (hc : env.commitResp ≠ .exn) (hr : env.releaseResp = .exn) :
    track_repository env url st = ⟨some .releaseExn, st, {}⟩ := by
  rcases hcr : env.commitResp with sha | _ | _
  · simp [track_repository, get_latest_commit, get_latest_release, hcr, hr]
  · simp [track_repository, get_latest_commit, get_latest_release, hcr, hr]
  · exact absurd hcr hc

/-- Key preservation through a whole non-query-raising sync. -/
theorem track_keys_core (env : Env) (url : String) (st : RState) (k : String)
    (lc lv : Option String) (urls : List String)
    (hc : get_latest_commit env.commitResp = .ok lc)
    (hr : get_latest_release env.releaseResp = .ok (lv, urls))
    (h : k ∈ st.dir.map Prod.fst) :
    k ∈ ((track_repository env url st).state.dir).map Prod.fst := by
  have hk1 := commit_step_keys env (get_repo_name url) (owner_repo_of url) lc st.store st.dir
    (k := k) h
  rcases h1 : commit_step env (get_repo_name url) (owner_repo_of url) lc st.store st.dir
    with ⟨e1, s1, d1, f1, b1⟩
  rw [h1] at hk1
  dsimp only at hk1
  cases e1 with
  | some e1 =>
    rw [track_repository_commit_err env url st lc lv urls e1 s1 d1 f1 b1 hc hr h1]
    exact hk1
  | none =>
    have hk2 := release_step_keys env (get_repo_name url) lv urls s1 d1 (k := k) hk1
    rcases h2 : release_step env (get_repo_name url) lv urls s1 d1
      with ⟨e2, s2, d2, f2, b2⟩
    rw [h2] at hk2
    dsimp only at hk2
    cases e2 with
    | some e2 =>
      rw [track_repository_release_err env url st lc lv urls e2 s1 s2 d1 d2 f1 f2 b1 b2
        hc hr h1 h2]
      exact hk2
    | none =>
      rw [track_repository_ok env url st lc lv urls s1 s2 d1 d2 f1 f2 b1 b2 hc hr h1 h2]
      exact finish_step_keys env (b1 || b2) d2 hk2

/-- C9, amended.  Local copies are never removed: `track_repository`
deletes no file — every file name present in the repository directory
before a sync is still present afterwards (downloads and the checksum
writer only create or overwrite files), whatever the outcome of the
sync or of the relay. -/
theorem C9_amended (env : Env) (url : String) (st : RState) (k : String)
    (h : k ∈ st.dir.map Prod.fst) :
    k ∈ ((track_repository env url st).state.dir).map Prod.fst := by
  rcases hcr : env.commitResp with sha | _ | _
  · rcases hrr : env.releaseResp with ⟨tag, urls⟩ | _ | _
    · exact track_keys_core env url st k (some sha) tag urls (by rw [hcr]; rfl)
        (by rw [hrr]; rfl) h
    · exact track_keys_core env url st k (some sha) none [] (by rw [hcr]; rfl)
        (by rw [hrr]; rfl) h
    · rw [track_repository_release_query_exn env url st (by rw [hcr]; intro hx; cases hx) hrr]
      exact h
  · rcases hrr : env.releaseResp with ⟨tag, urls⟩ | _ | _
    · exact track_keys_core env url st k none tag urls (by rw [hcr]; rfl)
        (by rw [hrr]; rfl) h
    · exact track_keys_core env url st k none none [] (by rw [hcr]; rfl)
        (by rw [hrr]; rfl) h
    · rw [track_repository_release_query_exn env url st (by rw [hcr]; intro hx; cases hx) hrr]
      exact h
  · rw [track_repository_commit_query_exn env url st hcr]
    exact h

/-- C9, witness: a leftover file from an earlier sync survives a sync at
a concrete input. -/
theorem C9_witness :
    "old.txt" ∈
      ((track_repository envSnapOnly urlOR ⟨[], [], [("old.txt", "X")]⟩).state.dir).map
        Prod.fst :=
  C9_amended envSnapOnly urlOR ⟨[], [], [("old.txt", "X")]⟩ "old.txt" (by decide)

/-- A sync on a state whose stored commit already equals the provider's
head (and with no release found) is a no-op apart from rewriting the
versions file with identical content. -/
theorem track_repository_steady (env : Env) (url : String) (st : RState) (c : String)
    (hc : env.commitResp = .ok c) (hr : env.releaseResp = .httpError)
    (hsame : ((alGet st.store (get_repo_name url)).getD {}).commit = some c) :
    track_repository env url st = ⟨none, ⟨st.store, st.store, st.dir⟩, ⟨[], 0⟩⟩ := by
  have hcE : get_latest_commit env.commitResp = .ok (some c) := by rw [hc]; rfl
  have hrE : get_latest_release env.releaseResp = .ok (none, []) := by rw [hr]; rfl
  have h1 : commit_step env (get_repo_name url) (owner_repo_of url) (some c) st.store st.dir
      = (none, st.store, st.dir, [], false) :=
    commit_step_skip _ _ _ _ _ _ (by simp [hsame])
  have h2 := release_step_skip_none env (get_repo_name url) [] st.store st.dir
  have he := track_repository_ok env url st (some c) none [] st.store st.store st.dir st.dir
    [] [] false false hcE hrE h1 h2
  simpa [finish_step] using he

/-- C2.  If the head commit is unchanged across two consecutive sync
invocations — including across a process restart after the version
store committed — the Notifier is invoked exactly once in total for
that commit: the first sync (which detects the new commit `c`) sends
one notification, persists `c`, and the second sync (on the reloaded
state) performs no fetch, no relay, and leaves the state unchanged. -/
theorem C2_no_duplicate_relay (env : Env) (url : String) (st : RState) (c : String)
    (hc : env.commitResp = .ok c) (hc0 : c ≠ "")
    (hr : env.releaseResp = .httpError)
    (hold : ((alGet st.store (get_repo_name url)).getD {}).commit ≠ some c)
    (hfe : env.fetch (zip_url_of (owner_repo_of url)) ≠ .exn) :
    (track_repository env url st).err = none ∧
    (track_repository env url st).trace.sends = 1 ∧
    restart (track_repository env url st).state = (track_repository env url st).state ∧
    (track_repository env url (restart (track_repository env url st).state)).trace.sends
      = 0 ∧
    (track_repository env url (restart (track_repository env url st).state)).trace.fetches
      = [] ∧
    (track_repository env url (restart (track_repository env url st).state)).state
      = (track_repository env url st).state ∧
    (track_repository env url st).trace.sends
      + (track_repository env url
          (restart (track_repository env url st).state)).trace.sends = 1 := by
  have hcE : get_latest_commit env.commitResp = .ok (some c) := by rw [hc]; rfl
  have hrE : get_latest_release env.releaseResp = .ok (none, []) := by rw [hr]; rfl
  have h1 := commit_step_fires env (get_repo_name url) (owner_repo_of url) c st.store st.dir
    hc0 hold hfe
  have h2 := release_step_skip_none env (get_repo_name url) []
    (alSet st.store (get_repo_name url)
      { (alGet st.store (get_repo_name url)).getD {} with commit := some c })
    ((download_file env (zip_url_of (owner_repo_of url)) "source.zip" st.dir).2)
  have he1 := track_repository_ok env url st (some c) none [] _ _ _ _ _ _ _ _ hcE hrE h1 h2
  have he2 := track_repository_steady env url
    (restart (track_repository env url st).state) c hc hr
    (by rw [he1]; simp [restart, alGet_alSet_self])
  rw [he2, he1]
  simp [restart, finish_step, send_telegram_message]

/-- C5.  A no-op cycle: when the queried head commit equals the stored
`last_commit` and the queried release equals the stored `last_release`
(or the repository has no release at all), the sync performs no fetch
and no relay, and no field of the repository's record changes — the
whole state is returned unchanged. -/
theorem C5_noop_cycle (env : Env) (url : String) (st : RState)
    (rec0 : VersionRecord) (c : String)
    (hrec : alGet st.store (get_repo_name url) = some rec0)
    (hc : env.commitResp = .ok c)
    (hsame : rec0.commit = some c)
    (hrel : env.releaseResp = .httpError ∨
            (∃ urls, env.releaseResp = .ok none urls) ∨
            (∃ urls, env.releaseResp = .ok rec0.release urls))
    (hsaved : st.saved = st.store) :
    track_repository env url st = ⟨none, st, ⟨[], 0⟩⟩ := by
  obtain ⟨sst, ssa, sdir⟩ := st
  simp only at hsaved hrec
  subst ssa
  have hcE : get_latest_commit env.commitResp = .ok (some c) := by rw [hc]; rfl
  have h1 : commit_step env (get_repo_name url) (owner_repo_of url) (some c) sst sdir
      = (none, sst, sdir, [], false) :=
    commit_step_skip _ _ _ _ _ _ (by simp [hrec, hsame])
  rcases hrel with hr | ⟨urls, hr⟩ | ⟨urls, hr⟩
  · have hrE : get_latest_release env.releaseResp = .ok (none, []) := by rw [hr]; rfl
    have h2 := release_step_skip_none env (get_repo_name url) [] sst sdir
    have he := track_repository_ok env url ⟨sst, sst, sdir⟩ (some c) none [] sst sst sdir sdir
      [] [] false false hcE hrE h1 h2
    simpa [finish_step] using he
  · have hrE : get_latest_release env.releaseResp = .ok (none, urls) := by rw [hr]; rfl
    have h2 := release_step_skip_none env (get_repo_name url) urls sst sdir
    have he := track_repository_ok env url ⟨sst, sst, sdir⟩ (some c) none urls sst sst sdir
      sdir [] [] false false hcE hrE h1 h2
    simpa [finish_step] using he
  · rcases hrl : rec0.release with _ | v
    · rw [hrl] at hr
      have hrE : get_latest_release env.releaseResp = .ok (none, urls) := by rw [hr]; rfl
      have h2 := release_step_skip_none env (get_repo_name url) urls sst sdir
      have he := track_repository_ok env url ⟨sst, sst, sdir⟩ (some c) none urls sst sst sdir
        sdir [] [] false false hcE hrE h1 h2
      simpa [finish_step] using he
    · rw [hrl] at hr
      have hrE : get_latest_release env.releaseResp = .ok (some v, urls) := by rw [hr]; rfl
      have h2 : release_step env (get_repo_name url) (some v) urls sst sdir
          = (none, sst, sdir, [], false) :=
        release_step_skip _ _ _ _ _ _ (by simp [hrec, hrl])
      have he := track_repository_ok env url ⟨sst, sst, sdir⟩ (some c) (some v) urls sst sst
        sdir sdir [] [] false false hcE hrE h1 h2
      simpa [finish_step] using he

/-- C1, amended.  The stored record is advanced as soon as a change is
detected, not after a successful fetch and relay: when a new commit is
detected, the snapshot download returns a non-success status (nothing is
materialized) and the Telegram send fails, `last_commit` is still
advanced and persisted and the (failed) notification is still the one
send.  Only a raised exception (e.g. a network error during the
download) aborts the sync before the assignment, leaving the in-memory
and persisted mappings unchanged. -/
theorem C1_amended :
    (∀ (env : Env) (url : String) (st : RState) (c : String),
      env.commitResp = .ok c → c ≠ "" →
      ((alGet st.store (get_repo_name url)).getD {}).commit ≠ some c →
      env.releaseResp = .httpError →
      env.fetch (zip_url_of (owner_repo_of url)) = .httpError →
      env.sendOk = false →
      (track_repository env url st).err = none ∧
      alGet (track_repository env url st).state.saved (get_repo_name url)
        = some { (alGet st.store (get_repo_name url)).getD {} with commit := some c } ∧
      alGet (track_repository env url st).state.dir "source.zip"
        = alGet st.dir "source.zip" ∧
      (track_repository env url st).trace.sends = 1) ∧
    (∀ (env : Env) (url : String) (st : RState) (c : String),
      env.commitResp = .ok c → c ≠ "" →
      ((alGet st.store (get_repo_name url)).getD {}).commit ≠ some c →
      env.releaseResp ≠ .exn →
      env.fetch (zip_url_of (owner_repo_of url)) = .exn →
      (track_repository env url st).err
        = some (.fetchExn (zip_url_of (owner_repo_of url))) ∧
      (track_repository env url st).state.store = st.store ∧
      (track_repository env url st).state.saved = st.saved ∧
      (track_repository env url st).trace.sends = 0) := by
  constructor
  · intro env url st c hc hc0 hold hr hf hs
    have hcE : get_latest_commit env.commitResp = .ok (some c) := by rw [hc]; rfl
    have hrE : get_latest_release env.releaseResp = .ok (none, []) := by rw [hr]; rfl
    have h1 := commit_step_fires env (get_repo_name url) (owner_repo_of url) c st.store st.dir
      hc0 hold (by rw [hf]; intro hx; cases hx)
    have hdf : download_file env (zip_url_of (owner_repo_of url)) "source.zip" st.dir
        = (none, st.dir) := by simp [download_file, hf]
    rw [hdf] at h1
    dsimp only at h1
    have h2 := release_step_skip_none env (get_repo_name url) []
      (alSet st.store (get_repo_name url)
        { (alGet st.store (get_repo_name url)).getD {} with commit := some c }) st.dir
    have he := track_repository_ok env url st (some c) none [] _ _ _ _ _ _ _ _ hcE hrE h1 h2
    rw [he]
    have hb : (true || false) = true := rfl
    rw [hb, finish_step_true]
    have hck : ("source.zip" : String) ≠ "checksums.txt" := by decide
    refine ⟨rfl, ?_, ?_, rfl⟩
    · simpa using alGet_alSet_self st.store (get_repo_name url)
        { (alGet st.store (get_repo_name url)).getD {} with commit := some c }
    · dsimp only
      rw [alGet_alSet_ne _ _ _ _ hck, alGet_alSet_ne _ _ _ _ hck]
  · intro env url st c hc hc0 hold hrne hf
    have hcE : get_latest_commit env.commitResp = .ok (some c) := by rw [hc]; rfl
    have h1 := commit_step_exn env (get_repo_name url) (owner_repo_of url) c st.store st.dir
      hc0 hold hf
    rcases hrr : env.releaseResp with ⟨tag, urls⟩ | _ | _
    · have hrE : get_latest_release env.releaseResp = .ok (tag, urls) := by rw [hrr]; rfl
      rw [track_repository_commit_err env url st (some c) tag urls _ st.store st.dir
        [zip_url_of (owner_repo_of url)] false hcE hrE h1]
      exact ⟨rfl, rfl, rfl, rfl⟩
    · have hrE : get_latest_release env.releaseResp = .ok (none, []) := by rw [hrr]; rfl
      rw [track_repository_commit_err env url st (some c) none [] _ st.store st.dir
        [zip_url_of (owner_repo_of url)] false hcE hrE h1]
      exact ⟨rfl, rfl, rfl, rfl⟩
    · exact absurd hrr hrne

/-- C1, witness: both halves of the amended claim at concrete inputs. -/
theorem C1_witness :
    ((track_repository envFetchHttpFail urlOR st0).err = none ∧
      alGet (track_repository envFetchHttpFail urlOR st0).state.saved
          (get_repo_name urlOR)
        = some { (alGet st0.store (get_repo_name urlOR)).getD {} with commit := some "c1" } ∧
      alGet (track_repository envFetchHttpFail urlOR st0).state.dir "source.zip"
        = alGet st0.dir "source.zip" ∧
      (track_repository envFetchHttpFail urlOR st0).trace.sends = 1) ∧
    ((track_repository envZipExn urlOR st0).err
        = some (.fetchExn (zip_url_of (owner_repo_of urlOR))) ∧
      (track_repository envZipExn urlOR st0).state.store = st0.store ∧
      (track_repository envZipExn urlOR st0).state.saved = st0.saved ∧
      (track_repository envZipExn urlOR st0).trace.sends = 0) :=
  ⟨C1_amended.1 envFetchHttpFail urlOR st0 "c1" rfl (by decide) (by decide) rfl rfl rfl,
   C1_amended.2 envZipExn urlOR st0 "c1" rfl (by decide) (by decide) (by decide) rfl⟩

/-- C2, witness: first run relays once, second run (after restart on the
committed state) relays nothing. -/
theorem C2_witness :
    (track_repository envSnapOnly urlOR st0).err = none ∧
    (track_repository envSnapOnly urlOR st0).trace.sends = 1 ∧
    restart (track_repository envSnapOnly urlOR st0).state
      = (track_repository envSnapOnly urlOR st0).state ∧
    (track_repository envSnapOnly urlOR
        (restart (track_repository envSnapOnly urlOR st0).state)).trace.sends = 0 ∧
    (track_repository envSnapOnly urlOR
        (restart (track_repository envSnapOnly urlOR st0).state)).trace.fetches = [] ∧
    (track_repository envSnapOnly urlOR
        (restart (track_repository envSnapOnly urlOR st0).state)).state
      = (track_repository envSnapOnly urlOR st0).state ∧
    (track_repository envSnapOnly urlOR st0).trace.sends
      + (track_repository envSnapOnly urlOR
          (restart (track_repository envSnapOnly urlOR st0).state)).trace.sends = 1 :=
  C2_no_duplicate_relay envSnapOnly urlOR st0 "c1" rfl (by decide) rfl (by decide) (by decide)

/-- C3, amended.  When the head-commit query fails, only the commit
branch is skipped (no snapshot fetch, `last_commit` unchanged); the sync
does not return early.  For an already-tracked repository a new release
is still processed in the same invocation — its assets are fetched, the
notification is sent, and `last_release` is advanced and persisted.
For an untracked repository the assets are still fetched, but line 117
(`version_tracking[repo_name]["release"]`) then raises `KeyError`, so
no notification is sent and nothing is persisted. -/
theorem C3_amended :
    (∀ (env : Env) (url : String) (st : RState) (v : String)
        (urls : List String) (rec0 : VersionRecord),
      env.commitResp = .httpError →
      env.releaseResp = .ok (some v) urls →
      v ≠ "" →
      alGet st.store (get_repo_name url) = some rec0 →
      rec0.release ≠ some v →
      (∀ u ∈ urls, env.fetch u ≠ .exn) →
      (track_repository env url st).err = none ∧
      (track_repository env url st).trace.fetches = urls ∧
      (track_repository env url st).trace.sends = 1 ∧
      alGet (track_repository env url st).state.saved (get_repo_name url)
        = some { rec0 with release := some v }) ∧
    (∀ (env : Env) (url : String) (st : RState) (v : String) (urls : List String),
      env.commitResp = .httpError →
      env.releaseResp = .ok (some v) urls →
      v ≠ "" →
      alGet st.store (get_repo_name url) = none →
      (∀ u ∈ urls, env.fetch u ≠ .exn) →
      (track_repository env url st).err = some .keyError ∧
      (track_repository env url st).trace.fetches = urls ∧
      (track_repository env url st).trace.sends = 0 ∧
      (track_repository env url st).state.store = st.store ∧
      (track_repository env url st).state.saved = st.saved) := by
  constructor
  · intro env url st v urls rec0 hc hr hv hrec hne hfu
    have hcE : get_latest_commit env.commitResp = .ok none := by rw [hc]; rfl
    have hrE : get_latest_release env.releaseResp = .ok (some v, urls) := by rw [hr]; rfl
    have h1 := commit_step_skip_none env (get_repo_name url) (owner_repo_of url)
      st.store st.dir
    have h2 := release_step_fires env (get_repo_name url) v urls st.store st.dir rec0
      hv hrec hne hfu
    have he := track_repository_ok env url st none (some v) urls _ _ _ _ _ _ _ _ hcE hrE h1 h2
    rw [he]
    have hb : (false || true) = true := rfl
    rw [hb, finish_step_true]
    refine ⟨rfl, by simp, rfl, ?_⟩
    simpa using alGet_alSet_self st.store (get_repo_name url) { rec0 with release := some v }
  · intro env url st v urls hc hr hv hrec hfu
    have hcE : get_latest_commit env.commitResp = .ok none := by rw [hc]; rfl
    have hrE : get_latest_release env.releaseResp = .ok (some v, urls) := by rw [hr]; rfl
    have h1 := commit_step_skip_none env (get_repo_name url) (owner_repo_of url)
      st.store st.dir
    have h2 := release_step_key_error env (get_repo_name url) v urls st.store st.dir
      hv hrec hfu
    have he := track_repository_release_err env url st none (some v) urls .keyError
      st.store st.store st.dir ((download_assets env urls st.dir).2.1) [] urls false false
      hcE hrE h1 h2
    rw [he]
    exact ⟨rfl, by simp, rfl, rfl, rfl⟩

/-- C3, witness: both halves of the amended claim at concrete inputs —
a tracked repository (release advanced and relayed despite the failed
commit query) and an untracked one (assets fetched, then `KeyError`,
nothing persisted). -/
theorem C3_witness :
    ((track_repository envNoCommit urlOR stC0).err = none ∧
      (track_repository envNoCommit urlOR stC0).trace.fetches = ["https://x/a.bin"] ∧
      (track_repository envNoCommit urlOR stC0).trace.sends = 1 ∧
      alGet (track_repository envNoCommit urlOR stC0).state.saved (get_repo_name urlOR)
        = some { (⟨some "c0", none⟩ : VersionRecord) with release := some "v1" }) ∧
    ((track_repository envNoCommit urlOR st0).err = some .keyError ∧
      (track_repository envNoCommit urlOR st0).trace.fetches = ["https://x/a.bin"] ∧
      (track_repository envNoCommit urlOR st0).trace.sends = 0 ∧
      (track_repository envNoCommit urlOR st0).state.store = st0.store ∧
      (track_repository envNoCommit urlOR st0).state.saved = st0.saved) :=
  ⟨C3_amended.1 envNoCommit urlOR stC0 "v1" ["https://x/a.bin"] ⟨some "c0", none⟩
      rfl rfl (by decide) (by decide) (by decide) (by decide),
   C3_amended.2 envNoCommit urlOR st0 "v1" ["https://x/a.bin"]
      rfl rfl (by decide) (by decide) (by decide)⟩

/-- C4, amended.  First run with commit `c` and release `v`: exactly one
snapshot fetch and exactly one fetch per release asset are performed (in
that order), exactly one Notifier invocation occurs in total (a single
combined message, not one per artifact), and afterwards the persisted
record equals `{last_commit: c, last_release: v}`. -/
theorem C4_amended (env : Env) (url : String) (st : RState) (c v : String)
    (urls : List String)
    (hst : st.store = [])
    (hc : env.commitResp = .ok c) (hc0 : c ≠ "")
    (hr : env.releaseResp = .ok (some v) urls) (hv : v ≠ "")
    (hfz : env.fetch (zip_url_of (owner_repo_of url)) ≠ .exn)
    (hfu : ∀ u ∈ urls, env.fetch u ≠ .exn) :
    (track_repository env url st).err = none ∧
    (track_repository env url st).trace.fetches
      = zip_url_of (owner_repo_of url) :: urls ∧
    (track_repository env url st).trace.sends = 1 ∧
    alGet (track_repository env url st).state.saved (get_repo_name url)
      = some { commit := some c, release := some v } ∧
    (track_repository env url st).state.saved
      = (track_repository env url st).state.store := by
  have hcE : get_latest_commit env.commitResp = .ok (some c) := by rw [hc]; rfl
  have hrE : get_latest_release env.releaseResp = .ok (some v, urls) := by rw [hr]; rfl
  have hold : ((alGet st.store (get_repo_name url)).getD {}).commit ≠ some c := by
    rw [hst]
    simp [alGet]
  have h1 := commit_step_fires env (get_repo_name url) (owner_repo_of url) c st.store st.dir
    hc0 hold hfz
  have hrec1 := alGet_alSet_self st.store (get_repo_name url)
    { (alGet st.store (get_repo_name url)).getD {} with commit := some c }
  have hne1 : ({ (alGet st.store (get_repo_name url)).getD {} with
      commit := some c } : VersionRecord).release ≠ some v := by
    rw [hst]
    simp [alGet]
  have h2 := release_step_fires env (get_repo_name url) v urls
    (alSet st.store (get_repo_name url)
      { (alGet st.store (get_repo_name url)).getD {} with commit := some c })
    ((download_file env (zip_url_of (owner_repo_of url)) "source.zip" st.dir).2)
    { (alGet st.store (get_repo_name url)).getD {} with commit := some c }
    hv hrec1 hne1 hfu
  have he := track_repository_ok env url st (some c) (some v) urls _ _ _ _ _ _ _ _
    hcE hrE h1 h2
  rw [he]
  have hb : (true || true) = true := rfl
  rw [hb, finish_step_true]
  refine ⟨rfl, by simp, rfl, ?_, rfl⟩
  dsimp only
  rw [alGet_alSet_self]

/-- C4, witness: the amended claim at a concrete first-run input. -/
theorem C4_witness :
    (track_repository envFirstRun urlOR st0).err = none ∧
    (track_repository envFirstRun urlOR st0).trace.fetches
      = zip_url_of (owner_repo_of urlOR) :: ["https://x/a.bin"] ∧
    (track_repository envFirstRun urlOR st0).trace.sends = 1 ∧
    alGet (track_repository envFirstRun urlOR st0).state.saved (get_repo_name urlOR)
      = some { commit := some "c1", release := some "v1" } ∧
    (track_repository envFirstRun urlOR st0).state.saved
      = (track_repository envFirstRun urlOR st0).state.store :=
  C4_amended envFirstRun urlOR st0 "c1" "v1" ["https://x/a.bin"] rfl rfl (by decide)
    rfl (by decide) (by decide) (by decide)

/-- C5, witness: a concrete no-op cycle. -/
theorem C5_witness :
    track_repository envNoChange urlOR stC0 = ⟨none, stC0, ⟨[], 0⟩⟩ :=
  C5_noop_cycle envNoChange urlOR stC0 ⟨some "c0", none⟩ "c0" (by decide) rfl rfl
    (Or.inl rfl) rfl

/-- C6, amended.  Within the asset loop, a non-success HTTP status while
fetching asset B does not block the other assets: A, B, C are all
attempted in order, A's and C's files are materialized, the release is
advanced and persisted, and the single notification is sent.  (A raised
network exception on B, by contrast, aborts the sync before C — see the
counterexample.)  There is no per-asset relay. -/
theorem C6_amended (env : Env) (url : String) (st : RState) (rec0 : VersionRecord)
    (c v uA uB uC a bodyC : String)
    (hc : env.commitResp = .ok c)
    (hrec : alGet st.store (get_repo_name url) = some rec0)
    (hcsame : rec0.commit = some c)
    (hr : env.releaseResp = .ok (some v) [uA, uB, uC])
    (hv : v ≠ "")
    (hrne : rec0.release ≠ some v)
    (hfa : env.fetch uA = .ok a)
    (hfb : env.fetch uB = .httpError)
    (hfc : env.fetch uC = .ok bodyC)
    (hAC : file_name_of uA ≠ file_name_of uC)
    (hAk : file_name_of uA ≠ "checksums.txt")
    (hCk : file_name_of uC ≠ "checksums.txt") :
    (track_repository env url st).err = none ∧
    (track_repository env url st).trace.fetches = [uA, uB, uC] ∧
    (track_repository env url st).trace.sends = 1 ∧
    (file_name_of uA, a) ∈ (track_repository env url st).state.dir ∧
    (file_name_of uC, bodyC) ∈ (track_repository env url st).state.dir ∧
    alGet (track_repository env url st).state.saved (get_repo_name url)
      = some { rec0 with release := some v } := by
  have hcE : get_latest_commit env.commitResp = .ok (some c) := by rw [hc]; rfl
  have hrE : get_latest_release env.releaseResp = .ok (some v, [uA, uB, uC]) := by
    rw [hr]; rfl
  have h1 : commit_step env (get_repo_name url) (owner_repo_of url) (some c) st.store st.dir
      = (none, st.store, st.dir, [], false) :=
    commit_step_skip _ _ _ _ _ _ (by simp [hrec, hcsame])
  have hno : ∀ u ∈ [uA, uB, uC], env.fetch u ≠ .exn := by
    intro u hu
    simp only [List.mem_cons, List.not_mem_nil, or_false] at hu
    rcases hu with rfl | rfl | rfl
    · simp [hfa]
    · simp [hfb]
    · simp [hfc]
  have hda : download_assets env [uA, uB, uC] st.dir
      = (none, alSet (alSet st.dir (file_name_of uA) a) (file_name_of uC) bodyC,
         [uA, uB, uC]) := by
    simp [download_assets, download_file, hfa, hfb, hfc]
  have h2 := release_step_fires env (get_repo_name url) v [uA, uB, uC] st.store st.dir rec0
    hv hrec hrne hno
  rw [hda] at h2
  dsimp only at h2
  have he := track_repository_ok env url st (some c) (some v) [uA, uB, uC] _ _ _ _ _ _ _ _
    hcE hrE h1 h2
  rw [he]
  have hb : (false || true) = true := rfl
  rw [hb, finish_step_true]
  refine ⟨rfl, by simp, rfl, ?_, ?_, ?_⟩
  · exact mem_alSet_of_ne _ _
      (mem_alSet_of_ne _ _
        (mem_alSet_of_ne _ _ (mem_alSet_self st.dir (file_name_of uA) a) hAC) hAk) hAk
  · exact mem_alSet_of_ne _ _
      (mem_alSet_of_ne _ _
        (mem_alSet_self (alSet st.dir (file_name_of uA) a) (file_name_of uC) bodyC) hCk) hCk
  · simpa using alGet_alSet_self st.store (get_repo_name url) { rec0 with release := some v }

/-- C6, witness: the amended claim at a concrete input (B returns a
non-200 status, A and C succeed). -/
theorem C6_witness :
    (track_repository envAssetHttp urlOR stC0).err = none ∧
    (track_repository envAssetHttp urlOR stC0).trace.fetches
      = ["https://x/A", "https://x/B", "https://x/C"] ∧
    (track_repository envAssetHttp urlOR stC0).trace.sends = 1 ∧
    (file_name_of "https://x/A", "DATA") ∈ (track_repository envAssetHttp urlOR stC0).state.dir ∧
    (file_name_of "https://x/C", "DATA") ∈ (track_repository envAssetHttp urlOR stC0).state.dir ∧
    alGet (track_repository envAssetHttp urlOR stC0).state.saved (get_repo_name urlOR)
      = some { (⟨some "c0", none⟩ : VersionRecord) with release := some "v1" } :=
  C6_amended envAssetHttp urlOR stC0 ⟨some "c0", none⟩ "c0" "v1"
    "https://x/A" "https://x/B" "https://x/C" "DATA" "DATA"
    rfl (by decide) rfl rfl (by decide) (by decide) rfl rfl rfl
    (by decide) (by decide) (by decide)

/-- Core of C10 for a sync whose provider queries did not raise. -/
theorem C10_core (env : Env) (url : String) (st : RState)
    (lc lv : Option String) (urls : List String)
    (hc : get_latest_commit env.commitResp = .ok lc)
    (hr : get_latest_release env.releaseResp = .ok (lv, urls))
    (hok : (track_repository env url st).err = none) :
    ((track_repository env url st).trace.sends = 1 →
      alGet (track_repository env url st).state.dir "checksums.txt"
        = some (checksumContent env
            (alSet (track_repository env url st).state.dir "checksums.txt" ""))) ∧
    ((track_repository env url st).trace.sends = 0 →
      (track_repository env url st).state.dir = st.dir) := by
  rcases h1 : commit_step env (get_repo_name url) (owner_repo_of url) lc st.store st.dir
    with ⟨e1, s1, d1, f1, b1⟩
  cases e1 with
  | some e1 =>
    rw [track_repository_commit_err env url st lc lv urls e1 s1 d1 f1 b1 hc hr h1] at hok
    simp at hok
  | none =>
    rcases h2 : release_step env (get_repo_name url) lv urls s1 d1
      with ⟨e2, s2, d2, f2, b2⟩
    cases e2 with
    | some e2 =>
      rw [track_repository_release_err env url st lc lv urls e2 s1 s2 d1 d2 f1 f2 b1 b2
        hc hr h1 h2] at hok
      simp at hok
    | none =>
      rw [track_repository_ok env url st lc lv urls s1 s2 d1 d2 f1 f2 b1 b2 hc hr h1 h2]
      cases hb : (b1 || b2)
      · obtain ⟨hb1, hb2⟩ := Bool.or_eq_false_iff.mp hb
        subst hb1
        subst hb2
        rw [finish_step_false]
        dsimp only
        obtain ⟨hs1, hd1, _⟩ := commit_step_no_update env _ _ lc st.store st.dir s1 d1 f1 h1
        obtain ⟨hs2, hd2, _⟩ := release_step_no_update env _ lv urls s1 d1 s2 d2 f2 h2
        refine ⟨fun h => absurd h (by decide), fun _ => ?_⟩
        rw [hd2, hd1]
      · rw [finish_step_true]
        dsimp only
        refine ⟨fun _ => ?_, fun h => absurd h (by decide)⟩
        rw [alGet_alSet_self, alSet_alSet_same, alSet_alSet_same]

/-- C10.  When a completed sync detected any change (equivalently, when
it sent its one notification), `checksums.txt` in the repository
directory has been overwritten with one `name: sha256-hex` line for
every regular file of the directory listing at iteration time — the
just-downloaded files, files left over from earlier syncs, and
`checksums.txt` itself, which `open(..., "w")` has just truncated (its
hashed bytes are the empty contents, the buffered lines not yet being
on disk).  When no change was detected, the directory — in particular
`checksums.txt` — is untouched. -/
theorem C10_checksums (env : Env) (url : String) (st : RState)
    (hok : (track_repository env url st).err = none) :
    ((track_repository env url st).trace.sends = 1 →
      alGet (track_repository env url st).state.dir "checksums.txt"
        = some (checksumContent env
            (alSet (track_repository env url st).state.dir "checksums.txt" ""))) ∧
    ((track_repository env url st).trace.sends = 0 →
      (track_repository env url st).state.dir = st.dir) := by
  rcases hcr : env.commitResp with sha | _ | _
  · rcases hrr : env.releaseResp with ⟨tag, urls⟩ | _ | _
    · exact C10_core env url st (some sha) tag urls (by rw [hcr]; rfl) (by rw [hrr]; rfl) hok
    · exact C10_core env url st (some sha) none [] (by rw [hcr]; rfl) (by rw [hrr]; rfl) hok
    · rw [track_repository_release_query_exn env url st (by rw [hcr]; intro hx; cases hx)
        hrr] at hok
      simp at hok
  · rcases hrr : env.releaseResp with ⟨tag, urls⟩ | _ | _
    · exact C10_core env url st none tag urls (by rw [hcr]; rfl) (by rw [hrr]; rfl) hok
    · exact C10_core env url st none none [] (by rw [hcr]; rfl) (by rw [hrr]; rfl) hok
    · rw [track_repository_release_query_exn env url st (by rw [hcr]; intro hx; cases hx)
        hrr] at hok
      simp at hok
  · rw [track_repository_commit_query_exn env url st hcr] at hok
    simp at hok

/-- C10, witness: the checksum property at a concrete updated sync. -/
theorem C10_witness :
    ((track_repository envSnapOnly urlOR st0).trace.sends = 1 →
      alGet (track_repository envSnapOnly urlOR st0).state.dir "checksums.txt"
        = some (checksumContent envSnapOnly
            (alSet (track_repository envSnapOnly urlOR st0).state.dir "checksums.txt" ""))) ∧
    ((track_repository envSnapOnly urlOR st0).trace.sends = 0 →
      (track_repository envSnapOnly urlOR st0).state.dir = st0.dir) :=
  C10_checksums envSnapOnly urlOR st0 (by decide)

end GhTg
